import Mathlib

/-!
Verification of the soft-delete relational core of the ragchat backend
(users, groups, memberships).  The Lean definitions below are a shallow
embedding of `app/models/{user,group,membership}.py` and the service layer
`app/services/{users,groups,memberships}.py`, together with the pre-insert
checks of `app/routers/users.py`.

Modelling conventions:
* Timestamps are `Nat`; `func.now()` / `datetime.now()` become an explicit
  `now` argument.  The `onupdate=func.now()` hook on `updated_at` fires on
  every UPDATE of a row.
* A SQLAlchemy session over a table is a `List` of records; `query(...).first()`
  is `List.find?`; mutating a loaded object then `db.commit()` is an update of
  the first matching list entry.  The session factory sets `autoflush=False`,
  so queries issued before a commit see only committed rows, never rows pending
  from `db.add(...)` in the same transaction.
* The partial unique indexes `ix_users_name_unique_active` and
  `ix_users_email_unique_active` (alembic revision a9e515ec096c) are modelled in
  `commitUsers`: a commit leaving two active users with the same name or email
  fails (IntegrityError and rollback).  The `memberships` table's constraint
  `UNIQUE (user_id, group_id, deleted_at)` never rejects two rows whose
  `deleted_at` is NULL (SQL treats NULLs as distinct), so membership commits
  carry no check.
* `pwd_context.hash` / `pwd_context.verify` are opaque collaborators, passed as
  explicit function arguments `hash` and `verify`.
* Raising an exception abandons the transaction: nothing pending is flushed, so
  the committed state returned alongside an error result is the input state.
-/

namespace RagChat

/-- Record of the `users` table (`app/models/user.py`): `deleted_at = none`
means the row is active. -/
structure User where
  id : Nat
  name : String
  email : String
  password : String
  created_at : Nat
  updated_at : Nat
  deleted_at : Option Nat
deriving DecidableEq, Repr

/-- Record of the `groups` table (`app/models/group.py`). -/
structure Group where
  id : Nat
  name : String
  description : Option String
  created_at : Nat
  updated_at : Nat
  deleted_at : Option Nat
deriving DecidableEq, Repr

/-- Record of the `memberships` table (`app/models/membership.py`). -/
structure Membership where
  id : Nat
  user_id : Nat
  group_id : Nat
  created_at : Nat
  updated_at : Nat
  deleted_at : Option Nat
deriving DecidableEq, Repr

/-- Committed database state: one list per table plus the autoincrement
counters that assign primary keys. -/
structure DB where
  users : List User
  groups : List Group
  memberships : List Membership
  nextUserId : Nat
  nextGroupId : Nat
  nextMembershipId : Nat
deriving DecidableEq, Repr

/-- Mutating the first list entry matching `p` (a loaded ORM object updated in
place and written back by PK on commit). -/
def updateFirst (p : α → Bool) (f : α → α) : List α → List α
  | [] => []
  | a :: l => if p a then f a :: l else a :: updateFirst p f l

/-- Bool-valued pairwise distinctness used by the unique-index model. -/
def pairwiseB (r : α → α → Bool) : List α → Bool
  | [] => true
  | a :: l => l.all (r a) && pairwiseB r l

/-- The two partial unique indexes of revision a9e515ec096c: among rows with
`deleted_at IS NULL`, `name` is unique and `email` is unique. -/
def usersIndexOk (us : List User) : Bool :=
  pairwiseB (fun a b => (a.name != b.name) && (a.email != b.email))
    (us.filter fun u => u.deleted_at == none)

/-- A commit that wrote the `users` table: succeeds and installs the new rows
unless the partial unique indexes reject it (IntegrityError, rollback). -/
def commitUsers (db : DB) (us : List User) (next : Nat) : Except Unit DB :=
  if usersIndexOk us then .ok { db with users := us, nextUserId := next }
  else .error ()

/-- `UserService.get_user_by_id`. -/
def get_user_by_id (db : DB) (uid : Nat) (include_deleted : Bool) : Option User :=
  db.users.find? fun u => u.id == uid && (include_deleted || u.deleted_at == none)

/-- `UserService.get_user_by_name`. -/
def get_user_by_name (db : DB) (n : String) (include_deleted : Bool) : Option User :=
  db.users.find? fun u => u.name == n && (include_deleted || u.deleted_at == none)

/-- `UserService.get_user_by_email`. -/
def get_user_by_email (db : DB) (e : String) (include_deleted : Bool) : Option User :=
  db.users.find? fun u => u.email == e && (include_deleted || u.deleted_at == none)

/-- `UserService.get_all_users`. -/
def get_all_users (db : DB) (include_deleted : Bool) : List User :=
  db.users.filter fun u => include_deleted || u.deleted_at == none

/-- `UserService.is_name_taken`. -/
def is_name_taken (db : DB) (n : String) : Bool :=
  (get_user_by_name db n false).isSome

/-- `UserService.is_email_taken`. -/
def is_email_taken (db : DB) (e : String) : Bool :=
  (get_user_by_email db e false).isSome

/-- Request body of `POST /api/users/` (`schemas/users.py UserCreate`). -/
structure UserCreate where
  name : String
  email : String
  password : String
deriving DecidableEq, Repr

/-- Failure modes of the create endpoint: the two router pre-checks, plus the
storage-level IntegrityError caught by the router. -/
inductive CreateErr where
  | nameTaken
  | emailTaken
  | integrity
deriving DecidableEq, Repr

/-- `routers/users.py create_user`: the two pre-insert checks followed by
`UserService.create_user` (hash the password, insert, commit). -/
def create_user (hash : String → String) (now : Nat) (db : DB) (d : UserCreate) :
    Except CreateErr (User × DB) :=
  if is_name_taken db d.name then .error .nameTaken
  else if is_email_taken db d.email then .error .emailTaken
  else
    match commitUsers db
        (db.users ++ [⟨db.nextUserId, d.name, d.email, hash d.password, now, now, none⟩])
        (db.nextUserId + 1) with
    | .ok db1 => .ok (⟨db.nextUserId, d.name, d.email, hash d.password, now, now, none⟩, db1)
    | .error _ => .error .integrity

/-- Request body of `PUT /api/users/{id}` (`schemas/users.py UserUpdate`): every
field optional. -/
structure UserUpdate where
  name : Option String
  email : Option String
  current_password : Option String
  new_password : Option String
deriving DecidableEq, Repr

/-- Outcomes of `UserService.update_user`: `None` return, the two ValueErrors of
the password sub-operation, IntegrityError (from a pre-check or from the
commit), or success. -/
inductive UpdateResult where
  | notFound
  | missingCurrentPassword
  | invalidCurrentPassword
  | conflict
  | updated (u : User)
deriving DecidableEq, Repr

/-- Python truthiness of `user_data.current_password`: `not x` holds for `None`
and for the empty string. -/
def strFalsy : Option String → Bool
  | none => true
  | some s => s == ""

/-- Password sub-operation of `UserService.update_user` (lines 182-193): require
a truthy current password, verify it against the stored hash, then replace the
hash. -/
def applyPasswordChange (hash : String → String) (verify : String → String → Bool)
    (u : User) (d : UserUpdate) : Except UpdateResult User :=
  match d.new_password with
  | none => .ok u
  | some np =>
    if strFalsy d.current_password then .error .missingCurrentPassword
    else if verify (d.current_password.getD "") u.password then
      .ok { u with password := hash np }
    else .error .invalidCurrentPassword

/-- Name step of `UserService.update_user` (lines 196-199): only a differing
name is checked against the active partition and applied. -/
def applyNameChange (db : DB) (u : User) (d : UserUpdate) : Except UpdateResult User :=
  match d.name with
  | none => .ok u
  | some n =>
    if n == u.name then .ok u
    else if is_name_taken db n then .error .conflict
    else .ok { u with name := n }

/-- Email step of `UserService.update_user` (lines 202-205). -/
def applyEmailChange (db : DB) (u : User) (d : UserUpdate) : Except UpdateResult User :=
  match d.email with
  | none => .ok u
  | some e =>
    if e == u.email then .ok u
    else if is_email_taken db e then .error .conflict
    else .ok { u with email := e }

/-- `UserService.update_user`: locate the active user, run the password, name
and email steps (each may raise, leaving the store untouched), then commit the
mutated row; `updated_at` is refreshed by the UPDATE when anything changed, and
a commit rejected by the unique indexes is rolled back. -/
def update_user (hash : String → String) (verify : String → String → Bool) (now : Nat)
    (db : DB) (uid : Nat) (d : UserUpdate) : UpdateResult × DB :=
  match get_user_by_id db uid false with
  | none => (.notFound, db)
  | some user =>
    match applyPasswordChange hash verify user d with
    | .error r => (r, db)
    | .ok u1 =>
      match applyNameChange db u1 d with
      | .error r => (r, db)
      | .ok u2 =>
        match applyEmailChange db u2 d with
        | .error r => (r, db)
        | .ok u3 =>
          let u4 := if u3 == user then u3 else { u3 with updated_at := now }
          match commitUsers db (updateFirst (fun v => v.id == uid) (fun _ => u4) db.users)
              db.nextUserId with
          | .ok db1 => (.updated u4, db1)
          | .error _ => (.conflict, db)

/-- `UserService.soft_delete_user_by_id`: stamp `deleted_at` on the active row
and commit (`updated_at` refreshed by the UPDATE); `.error ()` is the re-raised
commit failure. -/
def soft_delete_user_by_id (now : Nat) (db : DB) (uid : Nat) : Except Unit Bool × DB :=
  match get_user_by_id db uid false with
  | none => (.ok false, db)
  | some _ =>
    match commitUsers db
        (updateFirst (fun v => v.id == uid && v.deleted_at == none)
          (fun v => { v with deleted_at := some now, updated_at := now }) db.users)
        db.nextUserId with
    | .ok db1 => (.ok true, db1)
    | .error _ => (.error (), db)

/-- `UserService.hard_delete_user_by_id`: locate the row including deleted ones
and physically remove it. -/
def hard_delete_user_by_id (db : DB) (uid : Nat) : Bool × DB :=
  match get_user_by_id db uid true with
  | none => (false, db)
  | some _ => (true, { db with users := db.users.eraseP fun v => v.id == uid })

/-- `UserService.restore_user_by_id`: locate the row including deleted ones,
fail when absent or not deleted, clear `deleted_at` and commit (`updated_at`
refreshed; a commit rejected by the unique indexes is rolled back and
re-raised). -/
def restore_user_by_id (now : Nat) (db : DB) (uid : Nat) : Except Unit Bool × DB :=
  match get_user_by_id db uid true with
  | none => (.ok false, db)
  | some u =>
    if u.deleted_at == none then (.ok false, db)
    else
      match commitUsers db
          (updateFirst (fun v => v.id == uid)
            (fun v => { v with deleted_at := none, updated_at := now }) db.users)
          db.nextUserId with
      | .ok db1 => (.ok true, db1)
      | .error _ => (.error (), db)

/-- `UserService.soft_delete_all_users`: stamp every active row and commit once,
returning the count of rows stamped. -/
def soft_delete_all_users (now : Nat) (db : DB) : Nat × DB :=
  ((get_all_users db false).length,
    { db with users := db.users.map fun v =>
        if v.deleted_at == none then { v with deleted_at := some now, updated_at := now }
        else v })

/-- `UserService.delete_user_by_id`, the backward-compatibility alias. -/
def delete_user_by_id (now : Nat) (db : DB) (uid : Nat) : Except Unit Bool × DB :=
  soft_delete_user_by_id now db uid

/-- `UserService.delete_all_users`, the backward-compatibility alias. -/
def delete_all_users (now : Nat) (db : DB) : Nat × DB :=
  soft_delete_all_users now db

/-- `GroupService.get_group_by_id`. -/
def get_group_by_id (db : DB) (gid : Nat) (include_deleted : Bool) : Option Group :=
  db.groups.find? fun g => g.id == gid && (include_deleted || g.deleted_at == none)

/-- `GroupService.get_all_groups`. -/
def get_all_groups (db : DB) (include_deleted : Bool) : List Group :=
  db.groups.filter fun g => include_deleted || g.deleted_at == none

/-- `GroupService.soft_delete_group_by_id`: stamp `deleted_at` on the active row
and commit (`updated_at` refreshed by the UPDATE; the `groups` table carries no
unique index, so the commit always succeeds). -/
def soft_delete_group_by_id (now : Nat) (db : DB) (gid : Nat) : Bool × DB :=
  match get_group_by_id db gid false with
  | none => (false, db)
  | some _ =>
    let gs := updateFirst (fun g => g.id == gid && g.deleted_at == none)
      (fun g => { g with deleted_at := some now, updated_at := now }) db.groups
    (true, { db with groups := gs })

/-- `GroupService.hard_delete_group_by_id`. -/
def hard_delete_group_by_id (db : DB) (gid : Nat) : Bool × DB :=
  match get_group_by_id db gid true with
  | none => (false, db)
  | some _ => (true, { db with groups := db.groups.eraseP fun g => g.id == gid })

/-- `GroupService.restore_group_by_id`. -/
def restore_group_by_id (now : Nat) (db : DB) (gid : Nat) : Bool × DB :=
  match get_group_by_id db gid true with
  | none => (false, db)
  | some g =>
    if g.deleted_at == none then (false, db)
    else
      let gs := updateFirst (fun v => v.id == gid)
        (fun v => { v with deleted_at := none, updated_at := now }) db.groups
      (true, { db with groups := gs })

/-- `GroupService.soft_delete_all_groups`. -/
def soft_delete_all_groups (now : Nat) (db : DB) : Nat × DB :=
  ((get_all_groups db false).length,
    { db with groups := db.groups.map fun g =>
        if g.deleted_at == none then { g with deleted_at := some now, updated_at := now }
        else g })

/-- `GroupService.delete_group_by_id`, the backward-compatibility alias. -/
def delete_group_by_id (now : Nat) (db : DB) (gid : Nat) : Bool × DB :=
  soft_delete_group_by_id now db gid

/-- `GroupService.delete_all_groups`, the backward-compatibility alias. -/
def delete_all_groups (now : Nat) (db : DB) : Nat × DB :=
  soft_delete_all_groups now db

/-- The membership queries of `MembershipService`: the first active membership
row joining `user_id` and `group_id`. -/
def findActiveMembership (db : DB) (uid gid : Nat) : Option Membership :=
  db.memberships.find? fun m =>
    m.user_id == uid && m.group_id == gid && m.deleted_at == none

/-- Outcomes of `MembershipService.add_member_to_group`: the three ValueErrors
or the created membership. -/
inductive AddMemberResult where
  | notFoundGroup
  | notFoundUser
  | alreadyMember
  | added (m : Membership)
deriving DecidableEq, Repr

/-- `MembershipService.add_member_to_group`: check the group and the user are
active, check no active membership links them, then insert and commit. -/
def add_member_to_group (now : Nat) (db : DB) (gid uid : Nat) : AddMemberResult × DB :=
  match db.groups.find? (fun g => g.id == gid && g.deleted_at == none) with
  | none => (.notFoundGroup, db)
  | some _ =>
    match db.users.find? (fun u => u.id == uid && u.deleted_at == none) with
    | none => (.notFoundUser, db)
    | some _ =>
      match findActiveMembership db uid gid with
      | some _ => (.alreadyMember, db)
      | none =>
        (.added ⟨db.nextMembershipId, uid, gid, now, now, none⟩,
          { db with
            memberships := db.memberships ++ [⟨db.nextMembershipId, uid, gid, now, now, none⟩],
            nextMembershipId := db.nextMembershipId + 1 })

/-- Outcomes of `MembershipService.remove_member_from_group`: the ValueError or
success. -/
inductive RemoveMemberResult where
  | notFoundMembership
  | removed
deriving DecidableEq, Repr

/-- `MembershipService.remove_member_from_group`: soft-delete the active
membership of the pair and commit. -/
def remove_member_from_group (now : Nat) (db : DB) (gid uid : Nat) :
    RemoveMemberResult × DB :=
  match findActiveMembership db uid gid with
  | none => (.notFoundMembership, db)
  | some _ =>
    let ms := updateFirst
      (fun m => m.user_id == uid && m.group_id == gid && m.deleted_at == none)
      (fun m => { m with deleted_at := some now, updated_at := now }) db.memberships
    (.removed, { db with memberships := ms })

/-- Aggregate report of `MembershipService.add_multiple_members_to_group`. -/
structure BulkAddResult where
  added_count : Nat
  already_member_count : Nat
  errors : List String
deriving DecidableEq, Repr

/-- The f-string `f"ID {user_id} のユーザーが見つかりません"`. -/
def userNotFoundMsg (uid : Nat) : String :=
  "ID " ++ toString uid ++ " のユーザーが見つかりません"

/-- The f-string `f"ID {group_id} のグループが見つかりません"`. -/
def groupNotFoundMsg (gid : Nat) : String :=
  "ID " ++ toString gid ++ " のグループが見つかりません"

/-- One iteration of the bulk-add loop.  The session has `autoflush=False`, so
both in-loop queries read only the committed state `db`; rows already staged by
`db.add` in this same batch are invisible to them.  The accumulator carries the
report, the staged rows, and the id counter that will assign their keys. -/
def bulkAddStep (db : DB) (gid now : Nat)
    (acc : BulkAddResult × List Membership × Nat) (uid : Nat) :
    BulkAddResult × List Membership × Nat :=
  match db.users.find? (fun u => u.id == uid && u.deleted_at == none) with
  | none =>
    ({ acc.1 with errors := acc.1.errors ++ [userNotFoundMsg uid] }, acc.2.1, acc.2.2)
  | some _ =>
    match findActiveMembership db uid gid with
    | some _ =>
      ({ acc.1 with already_member_count := acc.1.already_member_count + 1 }, acc.2.1, acc.2.2)
    | none =>
      ({ acc.1 with added_count := acc.1.added_count + 1 },
        acc.2.1 ++ [⟨acc.2.2, uid, gid, now, now, none⟩], acc.2.2 + 1)

/-- `MembershipService.add_multiple_members_to_group`: the whole batch fails
with the group-not-found ValueError before any per-user work; otherwise every
id is classified and the staged rows are committed once at the end. -/
def add_multiple_members_to_group (now : Nat) (db : DB) (gid : Nat) (uids : List Nat) :
    Except String (BulkAddResult × DB) :=
  match db.groups.find? (fun g => g.id == gid && g.deleted_at == none) with
  | none => .error (groupNotFoundMsg gid)
  | some _ =>
    match uids.foldl (bulkAddStep db gid now) (⟨0, 0, []⟩, [], db.nextMembershipId) with
    | (r, pending, nextId) =>
      .ok (r, { db with memberships := db.memberships ++ pending,
                        nextMembershipId := nextId })

/-- Aggregate report of `MembershipService.remove_multiple_members_from_group`. -/
structure BulkRemoveResult where
  removed_count : Nat
  not_member_count : Nat
  errors : List String
deriving DecidableEq, Repr

/-- One iteration of the bulk-remove loop: with `autoflush=False` the query
reads the committed state `db`, so the classification of each id ignores
soft-delete stamps applied earlier in the same batch. -/
def bulkRemoveStep (db : DB) (gid : Nat) (acc : BulkRemoveResult) (uid : Nat) :
    BulkRemoveResult :=
  match findActiveMembership db uid gid with
  | none => { acc with not_member_count := acc.not_member_count + 1 }
  | some _ => { acc with removed_count := acc.removed_count + 1 }

/-- `MembershipService.remove_multiple_members_from_group`: no group check at
all; each id's active membership (as seen in the committed state) is
soft-deleted in place, and everything commits once at the end. -/
def remove_multiple_members_from_group (now : Nat) (db : DB) (gid : Nat)
    (uids : List Nat) : BulkRemoveResult × DB :=
  (uids.foldl (bulkRemoveStep db gid) ⟨0, 0, []⟩,
    { db with memberships := db.memberships.map fun m =>
        if uids.any (fun uid => findActiveMembership db uid gid == some m) then
          { m with deleted_at := some now, updated_at := now }
        else m })

/-- `MembershipService.is_member_of_group`. -/
def is_member_of_group (db : DB) (uid gid : Nat) : Bool :=
  (findActiveMembership db uid gid).isSome

/-- The user-facing operations on the `users` table reachable through the API:
create (router pre-checks included), update, soft delete, restore.  Each
carries the clock value of its transaction. -/
inductive Op where
  | create (now : Nat) (d : UserCreate)
  | update (now : Nat) (uid : Nat) (d : UserUpdate)
  | softDelete (now : Nat) (uid : Nat)
  | restore (now : Nat) (uid : Nat)
deriving DecidableEq, Repr

/-- The committed state after one operation (a failed operation leaves the
store as it was). -/
def applyOp (hash : String → String) (verify : String → String → Bool)
    (db : DB) : Op → DB
  | .create now d =>
    match create_user hash now db d with
    | .ok (_, db1) => db1
    | .error _ => db
  | .update now uid d => (update_user hash verify now db uid d).2
  | .softDelete now uid => (soft_delete_user_by_id now db uid).2
  | .restore now uid => (restore_user_by_id now db uid).2

/-- The committed state after a sequence of operations. -/
def applyOps (hash : String → String) (verify : String → String → Bool)
    (db : DB) (ops : List Op) : DB :=
  ops.foldl (applyOp hash verify) db

/-- The active-partition uniqueness invariant of the `users` table: no two
active rows share a name, no two share an email. -/
def usersUnique (us : List User) : Prop :=
  (us.filter fun u => u.deleted_at == none).Pairwise
    fun a b => a.name ≠ b.name ∧ a.email ≠ b.email

instance (us : List User) : Decidable (usersUnique us) := by
  unfold usersUnique
  infer_instance

/-- Password-hash collaborator used to instantiate witnesses. -/
def wHash (s : String) : String := "h" ++ s

/-- Verifier matching `wHash`, used to instantiate witnesses. -/
def wVerify (p h : String) : Bool := h == "h" ++ p

/-- Small store used to instantiate witnesses: two active users and one active
group, no memberships. -/
def wDbA : DB :=
  ⟨[⟨1, "alice", "a@x", "hpw", 0, 0, none⟩, ⟨2, "bob", "b@x", "hpw2", 0, 0, none⟩],
    [⟨1, "g1", none, 0, 0, none⟩], [], 3, 2, 1⟩

/-- Store used to instantiate witnesses: user 1 is an active member of group 1,
user 2 is not. -/
def wDbB : DB :=
  ⟨[⟨1, "alice", "a@x", "hpw", 0, 0, none⟩, ⟨2, "bob", "b@x", "hpw2", 0, 0, none⟩],
    [⟨1, "g1", none, 0, 0, none⟩], [⟨1, 1, 1, 0, 0, none⟩], 3, 2, 2⟩

/-- Store with a soft-deleted group that still has an active membership. -/
def wDbC : DB :=
  ⟨[⟨1, "u", "u@x", "h", 0, 0, none⟩], [⟨1, "g", none, 0, 0, some 3⟩],
    [⟨1, 1, 1, 0, 0, none⟩], 2, 2, 2⟩

instance {ε α : Type} [DecidableEq ε] [DecidableEq α] : DecidableEq (Except ε α) :=
  fun a b =>
    match a, b with
    | .error e1, .error e2 =>
      if h : e1 = e2 then isTrue (by rw [h]) else isFalse (by intro h2; cases h2; exact h rfl)
    | .ok a1, .ok a2 =>
      if h : a1 = a2 then isTrue (by rw [h]) else isFalse (by intro h2; cases h2; exact h rfl)
    | .error _, .ok _ => isFalse (by intro h2; cases h2)
    | .ok _, .error _ => isFalse (by intro h2; cases h2)

theorem updateFirst_length (p : α → Bool) (f : α → α) (l : List α) :
    (updateFirst p f l).length = l.length := by
  induction l with
  | nil => rfl
  | cons a l ih =>
    simp only [updateFirst]
    split <;> simp [ih]

theorem find?_updateFirst_split (p : α → Bool) (f : α → α) {l : List α} {a : α}
    (h : l.find? p = some a) :
    ∃ l1 l2, l = l1 ++ a :: l2 ∧ (∀ x ∈ l1, p x = false) ∧ p a = true ∧
      updateFirst p f l = l1 ++ f a :: l2 := by
  induction l with
  | nil => simp at h
  | cons b l ih =>
    cases hb : p b with
    | true =>
      rw [List.find?_cons_of_pos _ hb] at h
      obtain rfl : b = a := by injection h
      exact ⟨[], l, rfl, by simp, hb, by simp [updateFirst, hb]⟩
    | false =>
      rw [List.find?_cons_of_neg _ (by simp [hb])] at h
      obtain ⟨l1, l2, hl, h1, hpa, hu⟩ := ih h
      refine ⟨b :: l1, l2, by rw [hl]; rfl, ?_, hpa, ?_⟩
      · intro x hx
        rcases List.mem_cons.mp hx with rfl | hx
        · exact hb
        · exact h1 x hx
      · simp only [updateFirst, hb]
        rw [hu]
        simp

theorem pairwiseB_iff (r : α → α → Bool) (l : List α) :
    pairwiseB r l = true ↔ l.Pairwise fun a b => r a b = true := by
  induction l with
  | nil => simp [pairwiseB]
  | cons a l ih =>
    simp [pairwiseB, List.all_eq_true, ih, List.pairwise_cons]

theorem usersIndexOk_iff (us : List User) : usersIndexOk us = true ↔ usersUnique us := by
  rw [usersIndexOk, pairwiseB_iff, usersUnique]
  constructor
  · refine fun h => h.imp fun hab => ?_
    simpa [Bool.and_eq_true, bne_iff_ne] using hab
  · refine fun h => h.imp fun hab => ?_
    simpa [Bool.and_eq_true, bne_iff_ne] using hab

theorem commitUsers_ok {db : DB} {us : List User} {n : Nat} {db1 : DB}
    (h : commitUsers db us n = .ok db1) :
    usersUnique db1.users ∧ db1 = { db with users := us, nextUserId := n } := by
  rw [commitUsers] at h
  split at h
  next hok =>
    injection h with h2
    subst h2
    exact ⟨(usersIndexOk_iff _).mp hok, rfl⟩
  next => simp at h

theorem get_user_by_id_false (db : DB) (uid : Nat) :
    get_user_by_id db uid false
      = db.users.find? fun v => v.id == uid && v.deleted_at == none := by
  simp [get_user_by_id]

theorem get_user_by_id_true (db : DB) (uid : Nat) :
    get_user_by_id db uid true = db.users.find? fun v => v.id == uid := by
  simp [get_user_by_id]

theorem create_user_ok_unique {hash : String → String} {now : Nat} {db : DB}
    {d : UserCreate} {u : User} {db1 : DB}
    (h : create_user hash now db d = .ok (u, db1)) : usersUnique db1.users := by
  rw [create_user] at h
  split at h
  · simp at h
  · split at h
    · simp at h
    · split at h
      next db2 hcm =>
        injection h with h2
        injection h2 with h3 h4
        subst h4
        exact (commitUsers_ok hcm).1
      next => simp at h

theorem update_user_snd_unique (hash : String → String) (verify : String → String → Bool)
    (now : Nat) (db : DB) (uid : Nat) (d : UserUpdate) (h : usersUnique db.users) :
    usersUnique (update_user hash verify now db uid d).2.users := by
  simp only [update_user]
  split
  · exact h
  next user hf =>
    split
    · exact h
    · split
      · exact h
      · split
        · exact h
        · split
          next db1 hc => exact (commitUsers_ok hc).1
          next => exact h

theorem soft_delete_user_snd_unique (now : Nat) (db : DB) (uid : Nat)
    (h : usersUnique db.users) :
    usersUnique (soft_delete_user_by_id now db uid).2.users := by
  rw [soft_delete_user_by_id]
  split
  · exact h
  · split
    next db1 hc => exact (commitUsers_ok hc).1
    next => exact h

theorem restore_user_snd_unique (now : Nat) (db : DB) (uid : Nat)
    (h : usersUnique db.users) :
    usersUnique (restore_user_by_id now db uid).2.users := by
  rw [restore_user_by_id]
  split
  · exact h
  · split
    · exact h
    · split
      next db1 hc => exact (commitUsers_ok hc).1
      next => exact h

theorem applyOp_preserves (hash : String → String) (verify : String → String → Bool)
    (db : DB) (op : Op) (h : usersUnique db.users) :
    usersUnique (applyOp hash verify db op).users := by
  cases op with
  | create now d =>
    rw [applyOp]
    split
    next u db1 hc => exact create_user_ok_unique hc
    next => exact h
  | update now uid d => exact update_user_snd_unique hash verify now db uid d h
  | softDelete now uid => exact soft_delete_user_snd_unique now db uid h
  | restore now uid => exact restore_user_snd_unique now db uid h

theorem applyOps_preserves (hash : String → String) (verify : String → String → Bool)
    (db : DB) (ops : List Op) (h : usersUnique db.users) :
    usersUnique (applyOps hash verify db ops).users := by
  induction ops generalizing db with
  | nil => exact h
  | cons op ops ih => exact ih _ (applyOp_preserves hash verify db op h)

theorem is_name_taken_eq_false {db : DB} {n : String}
    (h : ∀ x ∈ db.users, x.deleted_at = none → x.name ≠ n) :
    is_name_taken db n = false := by
  rw [is_name_taken, get_user_by_name, List.find?_eq_none.mpr]
  · rfl
  · intro x hx
    simp only [Bool.false_or, Bool.and_eq_true, beq_iff_eq, not_and]
    intro hn hd
    exact absurd hn (h x hx hd)

theorem is_email_taken_eq_false {db : DB} {e : String}
    (h : ∀ x ∈ db.users, x.deleted_at = none → x.email ≠ e) :
    is_email_taken db e = false := by
  rw [is_email_taken, get_user_by_email, List.find?_eq_none.mpr]
  · rfl
  · intro x hx
    simp only [Bool.false_or, Bool.and_eq_true, beq_iff_eq, not_and]
    intro hn hd
    exact absurd hn (h x hx hd)

theorem unique_middle {l1 l2 : List User} {u : User}
    (hinv : usersUnique (l1 ++ u :: l2)) (hud : u.deleted_at = none) :
    usersUnique (l1 ++ l2) ∧
      ∀ x ∈ l1 ++ l2, x.deleted_at = none → x.name ≠ u.name ∧ x.email ≠ u.email := by
  have h0 : (l1 ++ u :: l2).filter (fun v => v.deleted_at == none)
      = l1.filter (fun v => v.deleted_at == none)
        ++ u :: l2.filter (fun v => v.deleted_at == none) := by
    simp [List.filter_append, List.filter_cons, hud]
  rw [usersUnique, h0] at hinv
  have hmid := (List.pairwise_middle
    fun hab => ⟨Ne.symm hab.1, Ne.symm hab.2⟩).mp hinv
  rw [List.pairwise_cons] at hmid
  obtain ⟨hu_all, hrest⟩ := hmid
  constructor
  · rw [usersUnique, List.filter_append]
    exact hrest
  · intro x hx hxd
    have hxf : x ∈ l1.filter (fun v => v.deleted_at == none)
        ++ l2.filter (fun v => v.deleted_at == none) := by
      rw [← List.filter_append]
      exact List.mem_filter.mpr ⟨hx, by simp [hxd]⟩
    have hr := hu_all x hxf
    exact ⟨hr.1.symm, hr.2.symm⟩

theorem soft_delete_found (now : Nat) {db : DB} {u : User}
    (hinv : usersUnique db.users)
    (hf : get_user_by_id db u.id false = some u) :
    ∃ l1 l2,
      db.users = l1 ++ u :: l2 ∧ u.deleted_at = none ∧
      (∀ x ∈ l1, (x.id == u.id && x.deleted_at == none) = false) ∧
      soft_delete_user_by_id now db u.id =
        (.ok true,
          { db with users :=
              l1 ++ { u with deleted_at := some now, updated_at := now } :: l2 }) := by
  have hf' : db.users.find? (fun v => v.id == u.id && v.deleted_at == none) = some u := by
    rw [get_user_by_id_false] at hf
    exact hf
  obtain ⟨l1, l2, hl, h1, hpa, hu⟩ :=
    find?_updateFirst_split (fun v : User => v.id == u.id && v.deleted_at == none)
      (fun v : User => { v with deleted_at := some now, updated_at := now }) hf'
  have hud : u.deleted_at = none := by
    simpa using ((Bool.and_eq_true _ _).mp hpa).2
  have hinv1 : usersUnique (l1 ++ u :: l2) := by rwa [hl] at hinv
  obtain ⟨hrest, _⟩ := unique_middle hinv1 hud
  have hidx : usersIndexOk
      (l1 ++ { u with deleted_at := some now, updated_at := now } :: l2) = true := by
    rw [usersIndexOk_iff, usersUnique]
    have h2 : (l1 ++ { u with deleted_at := some now, updated_at := now } :: l2).filter
        (fun v => v.deleted_at == none)
        = (l1 ++ l2).filter (fun v => v.deleted_at == none) := by
      simp [List.filter_append, List.filter_cons]
    rw [h2]
    rw [usersUnique] at hrest
    exact hrest
  refine ⟨l1, l2, hl, hud, h1, ?_⟩
  rw [soft_delete_user_by_id, hf]
  have hc : commitUsers db
      (updateFirst (fun v => v.id == u.id && v.deleted_at == none)
        (fun v => { v with deleted_at := some now, updated_at := now }) db.users)
      db.nextUserId =
      .ok { db with users :=
        l1 ++ { u with deleted_at := some now, updated_at := now } :: l2 } := by
    rw [hu, commitUsers, if_pos hidx]
  rw [hc]

theorem create_after_soft_delete (hash : String → String) (t1 t2 : Nat) (db : DB)
    (u : User) (pw : String)
    (hinv : usersUnique db.users)
    (hf : get_user_by_id db u.id false = some u) :
    ∃ v db2,
      create_user hash t2 (soft_delete_user_by_id t1 db u.id).2 ⟨u.name, u.email, pw⟩
        = .ok (v, db2) := by
  obtain ⟨l1, l2, hl, hud, h1, hsd⟩ := soft_delete_found t1 hinv hf
  have hinv1 : usersUnique (l1 ++ u :: l2) := by rwa [hl] at hinv
  obtain ⟨hrest, hothers⟩ := unique_middle hinv1 hud
  rw [hsd]
  have hmem : ∀ x ∈ l1 ++ { u with deleted_at := some t1, updated_at := t1 } :: l2,
      x.deleted_at = none → x.name ≠ u.name ∧ x.email ≠ u.email := by
    intro x hx hxd
    rcases List.mem_append.mp hx with hx1 | hx2
    · exact hothers x (List.mem_append.mpr (Or.inl hx1)) hxd
    · rcases List.mem_cons.mp hx2 with rfl | hx3
      · simp at hxd
      · exact hothers x (List.mem_append.mpr (Or.inr hx3)) hxd
  have hname : is_name_taken
      { db with users := l1 ++ { u with deleted_at := some t1, updated_at := t1 } :: l2 }
      u.name = false :=
    is_name_taken_eq_false fun x hx hxd => (hmem x hx hxd).1
  have hemail : is_email_taken
      { db with users := l1 ++ { u with deleted_at := some t1, updated_at := t1 } :: l2 }
      u.email = false :=
    is_email_taken_eq_false fun x hx hxd => (hmem x hx hxd).2
  have hidx : usersIndexOk
      ((l1 ++ { u with deleted_at := some t1, updated_at := t1 } :: l2)
        ++ [(⟨db.nextUserId, u.name, u.email, hash pw, t2, t2, none⟩ : User)]) = true := by
    rw [usersIndexOk_iff, usersUnique]
    have h2 : ((l1 ++ { u with deleted_at := some t1, updated_at := t1 } :: l2)
          ++ [(⟨db.nextUserId, u.name, u.email, hash pw, t2, t2, none⟩ : User)]).filter
        (fun v => v.deleted_at == none)
        = (l1 ++ l2).filter (fun v => v.deleted_at == none)
          ++ [(⟨db.nextUserId, u.name, u.email, hash pw, t2, t2, none⟩ : User)] := by
      simp [List.filter_append, List.filter_cons]
    rw [h2]
    rw [usersUnique] at hrest
    refine List.pairwise_append.mpr ⟨hrest, by simp, ?_⟩
    intro a ha b hb
    rcases List.mem_singleton.mp hb with rfl
    have ha2 := List.mem_filter.mp ha
    have ha3 : a.deleted_at = none := by simpa using ha2.2
    have := hothers a ha2.1 ha3
    exact this
  rw [create_user, hname, hemail]
  simp only [Bool.false_eq_true, if_false]
  rw [commitUsers, if_pos hidx]
  exact ⟨_, _, rfl⟩

theorem find?_append_of_fail {p : α → Bool} :
    ∀ {l1 : List α}, (∀ x ∈ l1, p x = false) → ∀ l2, (l1 ++ l2).find? p = l2.find? p
  | [], _, _ => rfl
  | a :: l, h, l2 => by
    rw [List.cons_append,
      List.find?_cons_of_neg _ (by simp [h a (List.mem_cons_self a l)])]
    exact find?_append_of_fail (fun x hx => h x (List.mem_cons_of_mem a hx)) l2

theorem restore_after_soft_delete_user (t1 t2 : Nat) (db : DB) (u : User)
    (hpk : db.users.Pairwise fun a b => a.id ≠ b.id)
    (hinv : usersUnique db.users)
    (hf : get_user_by_id db u.id false = some u) :
    (soft_delete_user_by_id t1 db u.id).1 = .ok true ∧
    (restore_user_by_id t2 (soft_delete_user_by_id t1 db u.id).2 u.id).1 = .ok true ∧
    get_user_by_id (restore_user_by_id t2 (soft_delete_user_by_id t1 db u.id).2 u.id).2
        u.id false = some { u with updated_at := t2, deleted_at := none } := by
  obtain ⟨l1, l2, hl, hud, h1, hsd⟩ := soft_delete_found t1 hinv hf
  have hinv1 : usersUnique (l1 ++ u :: l2) := by rwa [hl] at hinv
  obtain ⟨hrest, hothers⟩ := unique_middle hinv1 hud
  rw [hl] at hpk
  have hpk2 := (List.pairwise_middle (fun hab => Ne.symm hab)).mp hpk
  rw [List.pairwise_cons] at hpk2
  obtain ⟨hneu, hpkrest⟩ := hpk2
  simp only [hsd]
  refine ⟨trivial, ?_⟩
  have hfind1 : (l1 ++ { u with deleted_at := some t1, updated_at := t1 } :: l2).find?
      (fun v => v.id == u.id) = some { u with deleted_at := some t1, updated_at := t1 } := by
    rw [find?_append_of_fail, List.find?_cons_of_pos]
    · simp
    · intro x hx
      exact beq_eq_false_iff_ne.mpr (Ne.symm (hneu x (List.mem_append.mpr (Or.inl hx))))
  obtain ⟨l3, l4, heq, h3, hp3, hu3⟩ :=
    find?_updateFirst_split (fun v : User => v.id == u.id)
      (fun v : User => { v with deleted_at := none, updated_at := t2 }) hfind1
  have hne3 : ∀ x ∈ l3 ++ l4, x.id ≠ u.id := by
    have hpkmid : (l1 ++ { u with deleted_at := some t1, updated_at := t1 } :: l2).Pairwise
        (fun a b : User => a.id ≠ b.id) := by
      refine (List.pairwise_middle (fun hab => Ne.symm hab)).mpr ?_
      rw [List.pairwise_cons]
      exact ⟨fun x hx => hneu x hx, hpkrest⟩
    rw [heq] at hpkmid
    have hpkmid2 := (List.pairwise_middle (fun hab => Ne.symm hab)).mp hpkmid
    rw [List.pairwise_cons] at hpkmid2
    exact fun x hx => Ne.symm (hpkmid2.1 x hx)
  have hmem34 : ∀ x, x ∈ l3 ++ l4 → x ∈ l1 ++ l2 := by
    intro x hx
    have hx2 : x ∈ l1 ++ { u with deleted_at := some t1, updated_at := t1 } :: l2 := by
      rw [heq]
      rcases List.mem_append.mp hx with hx3 | hx3
      · exact List.mem_append.mpr (Or.inl hx3)
      · exact List.mem_append.mpr (Or.inr (List.mem_cons_of_mem _ hx3))
    rcases List.mem_append.mp hx2 with hx3 | hx3
    · exact List.mem_append.mpr (Or.inl hx3)
    · rcases List.mem_cons.mp hx3 with rfl | hx4
      · exact absurd rfl (hne3 { u with deleted_at := some t1, updated_at := t1 } hx)
      · exact List.mem_append.mpr (Or.inr hx4)
  have hfilter34 : (l3 ++ l4).filter (fun v => v.deleted_at == none)
      = (l1 ++ l2).filter (fun v => v.deleted_at == none) := by
    have e1 : (l3 ++ { u with deleted_at := some t1, updated_at := t1 } :: l4).filter
        (fun v => v.deleted_at == none)
        = (l3 ++ l4).filter (fun v => v.deleted_at == none) := by
      simp [List.filter_append, List.filter_cons]
    have e2 : (l1 ++ { u with deleted_at := some t1, updated_at := t1 } :: l2).filter
        (fun v => v.deleted_at == none)
        = (l1 ++ l2).filter (fun v => v.deleted_at == none) := by
      simp [List.filter_append, List.filter_cons]
    rw [← e1, ← heq, e2]
  have hidx : usersIndexOk
      (l3 ++ { u with deleted_at := none, updated_at := t2 } :: l4) = true := by
    rw [usersIndexOk_iff, usersUnique]
    have h2 : (l3 ++ { u with deleted_at := none, updated_at := t2 } :: l4).filter
        (fun v => v.deleted_at == none)
        = l3.filter (fun v => v.deleted_at == none)
          ++ { u with deleted_at := none, updated_at := t2 }
            :: l4.filter (fun v => v.deleted_at == none) := by
      simp [List.filter_append, List.filter_cons]
    rw [h2]
    refine (List.pairwise_middle (fun hab => ⟨Ne.symm hab.1, Ne.symm hab.2⟩)).mpr ?_
    rw [List.pairwise_cons]
    constructor
    · intro x hx
      rw [← List.filter_append, hfilter34] at hx
      have hx2 := List.mem_filter.mp hx
      have hx3 : x.deleted_at = none := by simpa using hx2.2
      have := hothers x hx2.1 hx3
      exact ⟨this.1.symm, this.2.symm⟩
    · rw [← List.filter_append, hfilter34, List.filter_append]
      rw [usersUnique, List.filter_append] at hrest
      exact hrest
  rw [restore_user_by_id, get_user_by_id_true]
  simp only [hfind1]
  have hdel : (({ u with deleted_at := some t1, updated_at := t1 } : User).deleted_at
      == none) = false := by simp
  rw [hdel]
  simp only [Bool.false_eq_true, if_false]
  rw [hu3, commitUsers, if_pos hidx]
  simp only []
  refine ⟨trivial, ?_⟩
  rw [get_user_by_id_false]
  have h3' : ∀ x ∈ l3, (x.id == u.id && x.deleted_at == none) = false := by
    intro x hx
    rw [h3 x hx]
    rfl
  rw [find?_append_of_fail h3', List.find?_cons_of_pos]
  simp

theorem get_group_by_id_false (db : DB) (gid : Nat) :
    get_group_by_id db gid false
      = db.groups.find? fun v => v.id == gid && v.deleted_at == none := by
  simp [get_group_by_id]

theorem get_group_by_id_true (db : DB) (gid : Nat) :
    get_group_by_id db gid true = db.groups.find? fun v => v.id == gid := by
  simp [get_group_by_id]

theorem restore_after_soft_delete_group (t1 t2 : Nat) (db : DB) (g : Group)
    (hpk : db.groups.Pairwise fun a b => a.id ≠ b.id)
    (hf : get_group_by_id db g.id false = some g) :
    (soft_delete_group_by_id t1 db g.id).1 = true ∧
    (restore_group_by_id t2 (soft_delete_group_by_id t1 db g.id).2 g.id).1 = true ∧
    get_group_by_id (restore_group_by_id t2 (soft_delete_group_by_id t1 db g.id).2 g.id).2
        g.id false = some { g with updated_at := t2, deleted_at := none } := by
  have hf' : db.groups.find? (fun v => v.id == g.id && v.deleted_at == none) = some g := by
    rw [get_group_by_id_false] at hf
    exact hf
  obtain ⟨l1, l2, hl, h1, hpa, hu⟩ :=
    find?_updateFirst_split (fun v : Group => v.id == g.id && v.deleted_at == none)
      (fun v : Group => { v with deleted_at := some t1, updated_at := t1 }) hf'
  rw [hl] at hpk
  have hpk2 := (List.pairwise_middle (fun hab => Ne.symm hab)).mp hpk
  rw [List.pairwise_cons] at hpk2
  obtain ⟨hneu, _⟩ := hpk2
  have hsd : soft_delete_group_by_id t1 db g.id =
      (true, { db with groups :=
        l1 ++ { g with deleted_at := some t1, updated_at := t1 } :: l2 }) := by
    rw [soft_delete_group_by_id, hf]
    simp only [hu]
  simp only [hsd]
  refine ⟨trivial, ?_⟩
  have hfind1 : (l1 ++ { g with deleted_at := some t1, updated_at := t1 } :: l2).find?
      (fun v => v.id == g.id) = some { g with deleted_at := some t1, updated_at := t1 } := by
    rw [find?_append_of_fail, List.find?_cons_of_pos]
    · simp
    · intro x hx
      exact beq_eq_false_iff_ne.mpr (Ne.symm (hneu x (List.mem_append.mpr (Or.inl hx))))
  obtain ⟨l3, l4, heq, h3, hp3, hu3⟩ :=
    find?_updateFirst_split (fun v : Group => v.id == g.id)
      (fun v : Group => { v with deleted_at := none, updated_at := t2 }) hfind1
  rw [restore_group_by_id, get_group_by_id_true]
  simp only [hfind1]
  have hdel : (({ g with deleted_at := some t1, updated_at := t1 } : Group).deleted_at
      == none) = false := by simp
  rw [hdel]
  simp only [Bool.false_eq_true, if_false, hu3]
  refine ⟨trivial, ?_⟩
  rw [get_group_by_id_false]
  have h3' : ∀ x ∈ l3, (x.id == g.id && x.deleted_at == none) = false := by
    intro x hx
    rw [h3 x hx]
    rfl
  rw [find?_append_of_fail h3', List.find?_cons_of_pos]
  simp

theorem update_user_cases (hash : String → String) (verify : String → String → Bool)
    (now : Nat) (db : DB) (uid : Nat) (d : UserUpdate) :
    (update_user hash verify now db uid d).2 = db ∨
      ∃ u, (update_user hash verify now db uid d).1 = .updated u := by
  simp only [update_user]
  split
  · exact Or.inl rfl
  · split
    · exact Or.inl rfl
    · split
      · exact Or.inl rfl
      · split
        · exact Or.inl rfl
        · split
          · exact Or.inr ⟨_, rfl⟩
          · exact Or.inl rfl

/-- C1: after any sequence of the user-facing operations (create through the
router's pre-insert checks, update, soft delete, restore), no two active users
share a name and no two share an email; and soft-deleting a user frees its name
and email, so that creating a new active user with that name and email
succeeds. -/
theorem C1_active_partition_uniqueness :
    (∀ (hash : String → String) (verify : String → String → Bool) (db : DB) (ops : List Op),
      usersUnique db.users → usersUnique (applyOps hash verify db ops).users) ∧
    (∀ (hash : String → String) (t1 t2 : Nat) (db : DB) (u : User) (pw : String),
      usersUnique db.users → get_user_by_id db u.id false = some u →
      ∃ v db2,
        create_user hash t2 (soft_delete_user_by_id t1 db u.id).2 ⟨u.name, u.email, pw⟩
          = .ok (v, db2)) :=
  ⟨fun hash verify db ops h => applyOps_preserves hash verify db ops h,
   fun hash t1 t2 db u pw hinv hf => create_after_soft_delete hash t1 t2 db u pw hinv hf⟩

/-- C1 witness: the invariant holds after a concrete operation sequence, and
re-creating a soft-deleted user's name and email succeeds on a concrete
store. -/
theorem C1_witness :
    usersUnique (applyOps wHash wVerify
      ⟨[⟨1, "alice", "a@x", "hpw", 0, 0, none⟩], [], [], 2, 1, 1⟩
      [.create 1 ⟨"bob", "b@x", "pw2"⟩, .update 2 1 ⟨some "alice2", none, none, none⟩,
        .softDelete 3 2, .restore 4 2]).users ∧
    ∃ v db2,
      create_user wHash 7
        (soft_delete_user_by_id 5
          ⟨[⟨1, "alice", "a@x", "hpw", 0, 0, none⟩], [], [], 2, 1, 1⟩ 1).2
        ⟨"alice", "a@x", "pw"⟩ = .ok (v, db2) :=
  ⟨C1_active_partition_uniqueness.1 wHash wVerify _ _ (by decide),
   C1_active_partition_uniqueness.2 wHash 5 7 _ ⟨1, "alice", "a@x", "hpw", 0, 0, none⟩ "pw"
     (by decide) (by decide)⟩

/-- C4: whenever `update_user` fails with Conflict (a name or email uniqueness
violation, detected by a pre-check or by the commit), the committed user store
is left entirely unchanged; no partial state, including a newly hashed password
from the same request, is retained. -/
theorem C4_update_conflict_atomic (hash : String → String) (verify : String → String → Bool)
    (now : Nat) (db : DB) (uid : Nat) (d : UserUpdate)
    (h : (update_user hash verify now db uid d).1 = .conflict) :
    (update_user hash verify now db uid d).2 = db := by
  rcases update_user_cases hash verify now db uid d with h2 | ⟨u, h2⟩
  · exact h2
  · rw [h] at h2
    exact absurd h2 (by simp)

/-- C4 witness: a concrete conflicting update (renaming alice to the taken name
bob, together with a password change) leaves the store unchanged. -/
theorem C4_witness :
    (update_user wHash wVerify 5 wDbA 1 ⟨some "bob", none, some "pw", some "newpass"⟩).2
      = wDbA :=
  C4_update_conflict_atomic wHash wVerify 5 wDbA 1
    ⟨some "bob", none, some "pw", some "newpass"⟩ (by decide)

theorem applyNameChange_ok_password {db : DB} {u : User} {d : UserUpdate} {u2 : User}
    (h : applyNameChange db u d = .ok u2) : u2.password = u.password := by
  rw [applyNameChange] at h
  split at h
  · injection h with h2
    rw [← h2]
  · split at h
    · injection h with h2
      rw [← h2]
    · split at h
      · simp at h
      · injection h with h2
        rw [← h2]

theorem applyEmailChange_ok_password {db : DB} {u : User} {d : UserUpdate} {u2 : User}
    (h : applyEmailChange db u d = .ok u2) : u2.password = u.password := by
  rw [applyEmailChange] at h
  split at h
  · injection h with h2
    rw [← h2]
  · split at h
    · injection h with h2
      rw [← h2]
    · split at h
      · simp at h
      · injection h with h2
        rw [← h2]

theorem applyNameChange_error_conflict {db : DB} {u : User} {d : UserUpdate}
    {r : UpdateResult} (h : applyNameChange db u d = .error r) : r = .conflict := by
  rw [applyNameChange] at h
  split at h
  · simp at h
  · split at h
    · simp at h
    · split at h
      · injection h with h2
        rw [← h2]
      · simp at h

theorem applyEmailChange_error_conflict {db : DB} {u : User} {d : UserUpdate}
    {r : UpdateResult} (h : applyEmailChange db u d = .error r) : r = .conflict := by
  rw [applyEmailChange] at h
  split at h
  · simp at h
  · split at h
    · simp at h
    · split at h
      · injection h with h2
        rw [← h2]
      · simp at h

/-- C5: for every update request carrying a new password, `update_user` fails
with the missing-field ValueError when the supplied current password is falsy
(absent or empty), fails with the invalid-credential ValueError when it does
not verify against the stored hash, leaving the store unchanged in both cases;
and any successful update stored the hash of the new password only after the
current password verified. -/
theorem C5_password_change_guards (hash : String → String) (verify : String → String → Bool)
    (now : Nat) (db : DB) (uid : Nat) (d : UserUpdate) (np : String) (user : User)
    (hu : get_user_by_id db uid false = some user)
    (hnp : d.new_password = some np) :
    (strFalsy d.current_password = true →
      update_user hash verify now db uid d = (.missingCurrentPassword, db)) ∧
    (∀ cp, d.current_password = some cp → cp ≠ "" →
      verify cp user.password = false →
      update_user hash verify now db uid d = (.invalidCurrentPassword, db)) ∧
    (∀ u2 db2, update_user hash verify now db uid d = (.updated u2, db2) →
      verify (d.current_password.getD "") user.password = true ∧
      u2.password = hash np) := by
  refine ⟨?_, ?_, ?_⟩
  · intro hmiss
    simp [update_user, hu, applyPasswordChange, hnp, hmiss]
  · intro cp hcp hne hvf
    have hsf : strFalsy d.current_password = false := by
      rw [hcp]
      simpa [strFalsy] using hne
    simp [update_user, hu, applyPasswordChange, hnp, hsf, hcp, hvf, strFalsy, hne]
  · intro u2 db2 hupd
    rw [update_user, hu] at hupd
    simp only [applyPasswordChange, hnp] at hupd
    cases hsf : strFalsy d.current_password with
    | true =>
      rw [hsf] at hupd
      simp at hupd
    | false =>
      rw [hsf] at hupd
      simp only [Bool.false_eq_true, if_false] at hupd
      cases hv : verify (d.current_password.getD "") user.password with
      | false =>
        rw [hv] at hupd
        simp at hupd
      | true =>
        rw [hv] at hupd
        simp only [if_true] at hupd
        refine ⟨rfl, ?_⟩
        cases hn : applyNameChange db { user with password := hash np } d with
        | error r =>
          rw [hn] at hupd
          have hr := applyNameChange_error_conflict hn
          subst hr
          simp at hupd
        | ok u1 =>
          rw [hn] at hupd
          simp only [] at hupd
          cases he : applyEmailChange db u1 d with
          | error r =>
            rw [he] at hupd
            simp only [] at hupd
            have hr := applyEmailChange_error_conflict he
            subst hr
            simp at hupd
          | ok u3 =>
            rw [he] at hupd
            simp only [] at hupd
            split at hupd
            next db1 hc =>
              have hu2 : (if u3 == user then u3 else { u3 with updated_at := now }) = u2 := by
                have h5 := congrArg Prod.fst hupd
                simpa using h5
              have hifp : (if u3 == user then u3
                  else { u3 with updated_at := now }).password = u3.password := by
                split <;> rfl
              rw [← hu2, hifp, applyEmailChange_ok_password he,
                applyNameChange_ok_password hn]
            next => simp at hupd

/-- C5 witness: on a concrete store, a password change without the current
password fails with the missing-field error; one with a wrong current password
fails with the invalid-credential error; both leave the store unchanged. -/
theorem C5_witness :
    update_user wHash wVerify 5 wDbA 1 ⟨none, none, none, some "newpass1"⟩
      = (.missingCurrentPassword, wDbA) ∧
    update_user wHash wVerify 5 wDbA 1 ⟨none, none, some "wrong", some "newpass1"⟩
      = (.invalidCurrentPassword, wDbA) :=
  ⟨(C5_password_change_guards wHash wVerify 5 wDbA 1 ⟨none, none, none, some "newpass1"⟩
      "newpass1" ⟨1, "alice", "a@x", "hpw", 0, 0, none⟩ (by decide) rfl).1 (by decide),
   ((C5_password_change_guards wHash wVerify 5 wDbA 1 ⟨none, none, some "wrong", some "newpass1"⟩
      "newpass1" ⟨1, "alice", "a@x", "hpw", 0, 0, none⟩ (by decide) rfl).2.1 "wrong"
      rfl (by decide) (by decide))⟩

/-- C6 counterexample: on a concrete store, soft-deleting user 1 (whose
updated_at is 0) at time 5 and restoring at time 7 succeeds, but the restored
row carries updated_at 7 — the onupdate hook refreshed the timestamp on both
commits, so it is not the case that only deleted_at changed. -/
theorem C6_counterexample :
    (get_user_by_id wDbA 1 false).map User.updated_at = some 0 ∧
    (restore_user_by_id 7 (soft_delete_user_by_id 5 wDbA 1).2 1).1 = .ok true ∧
    (get_user_by_id (restore_user_by_id 7 (soft_delete_user_by_id 5 wDbA 1).2 1).2 1
        false).map User.updated_at = some 7 := by
  decide

/-- C6 amended: soft delete followed by restore returns the entity (User or
Group) to active with every stored field except updated_at equal to its
pre-delete value and deleted_at back to NULL; updated_at alone is refreshed to
the restore time by the onupdate hook. -/
theorem C6_soft_delete_restore_frame (t1 t2 : Nat) (db : DB) (u : User) (g : Group)
    (hpk : db.users.Pairwise fun a b => a.id ≠ b.id)
    (hinv : usersUnique db.users)
    (hfu : get_user_by_id db u.id false = some u)
    (hgpk : db.groups.Pairwise fun a b => a.id ≠ b.id)
    (hfg : get_group_by_id db g.id false = some g) :
    ((soft_delete_user_by_id t1 db u.id).1 = .ok true ∧
      (restore_user_by_id t2 (soft_delete_user_by_id t1 db u.id).2 u.id).1 = .ok true ∧
      get_user_by_id (restore_user_by_id t2 (soft_delete_user_by_id t1 db u.id).2 u.id).2
          u.id false = some { u with updated_at := t2, deleted_at := none }) ∧
    ((soft_delete_group_by_id t1 db g.id).1 = true ∧
      (restore_group_by_id t2 (soft_delete_group_by_id t1 db g.id).2 g.id).1 = true ∧
      get_group_by_id (restore_group_by_id t2 (soft_delete_group_by_id t1 db g.id).2 g.id).2
          g.id false = some { g with updated_at := t2, deleted_at := none }) :=
  ⟨restore_after_soft_delete_user t1 t2 db u hpk hinv hfu,
   restore_after_soft_delete_group t1 t2 db g hgpk hfg⟩

/-- C6 witness: the amended frame property evaluated on a concrete store, for a
user and a group. -/
theorem C6_witness :
    get_user_by_id (restore_user_by_id 7 (soft_delete_user_by_id 5 wDbA 1).2 1).2 1 false
      = some ⟨1, "alice", "a@x", "hpw", 0, 7, none⟩ ∧
    get_group_by_id (restore_group_by_id 7 (soft_delete_group_by_id 5 wDbA 1).2 1).2 1 false
      = some ⟨1, "g1", none, 0, 7, none⟩ :=
  ⟨(C6_soft_delete_restore_frame 5 7 wDbA ⟨1, "alice", "a@x", "hpw", 0, 0, none⟩
      ⟨1, "g1", none, 0, 0, none⟩ (by decide) (by decide) (by decide) (by decide)
      (by decide)).1.2.2,
   (C6_soft_delete_restore_frame 5 7 wDbA ⟨1, "alice", "a@x", "hpw", 0, 0, none⟩
      ⟨1, "g1", none, 0, 0, none⟩ (by decide) (by decide) (by decide) (by decide)
      (by decide)).2.2.2⟩

theorem find?_id_eraseP {l : List User} {uid : Nat}
    (hpk : l.Pairwise fun a b => a.id ≠ b.id) :
    (l.eraseP fun v => v.id == uid).find? (fun v => v.id == uid) = none := by
  induction l with
  | nil => rfl
  | cons a l ih =>
    rw [List.pairwise_cons] at hpk
    obtain ⟨ha, hl⟩ := hpk
    cases hb : (a.id == uid) with
    | true =>
      simp only [List.eraseP_cons, hb, cond_true]
      rw [List.find?_eq_none]
      intro x hx
      have haid : a.id = uid := by simpa using hb
      simp only [beq_iff_eq]
      intro hxid
      exact ha x hx (haid.trans hxid.symm)
    | false =>
      simp only [List.eraseP_cons, hb, cond_false]
      rw [List.find?_cons_of_neg _ (by simp [hb])]
      exact ih hl

/-- C7: whether the user row was active or soft-deleted, after hard_delete
succeeds on an id, a lookup by that id with include_deleted true returns none;
and hard_delete on an id that resolves to no row at all returns failure and
removes nothing. -/
theorem C7_hard_delete (db : DB) (uid : Nat)
    (hpk : db.users.Pairwise fun a b => a.id ≠ b.id) :
    ((hard_delete_user_by_id db uid).1 = true →
      get_user_by_id (hard_delete_user_by_id db uid).2 uid true = none) ∧
    (get_user_by_id db uid true = none → hard_delete_user_by_id db uid = (false, db)) := by
  constructor
  · intro hs
    rw [hard_delete_user_by_id] at hs ⊢
    cases hf : get_user_by_id db uid true with
    | none =>
      rw [hf] at hs
      simp at hs
    | some u =>
      rw [get_user_by_id_true]
      exact find?_id_eraseP hpk
  · intro hn
    rw [hard_delete_user_by_id, hn]

/-- C7 witness: hard-deleting user 1 makes the include-deleted lookup return
none, and hard-deleting the absent id 99 fails and leaves the store
unchanged. -/
theorem C7_witness :
    get_user_by_id (hard_delete_user_by_id wDbA 1).2 1 true = none ∧
    hard_delete_user_by_id wDbA 99 = (false, wDbA) :=
  ⟨(C7_hard_delete wDbA 1 (by decide)).1 (by decide),
   (C7_hard_delete wDbA 99 (by decide)).2 (by decide)⟩

/-- C9: evaluation at the failing input.  Group 1 and user 2 are active and no
membership exists, yet bulk-adding the duplicate list `[2, 2]` reports
added_count 2 and already_member_count 0, and commits two active membership
rows for the same `(user_id, group_id)` pair: the in-loop duplicate check reads
only committed state (autoflush is disabled) and the
`(user_id, group_id, deleted_at)` unique constraint does not reject two NULL
`deleted_at` rows. -/
theorem C9_duplicate_bulk_add_eval :
    add_multiple_members_to_group 9 wDbA 1 [2, 2]
      = .ok (⟨2, 0, []⟩,
          { wDbA with
            memberships := [⟨1, 2, 1, 9, 9, none⟩, ⟨2, 2, 1, 9, 9, none⟩],
            nextMembershipId := 3 }) := by
  decide

theorem bulkRemove_all_not_member {db : DB} {gid : Nat}
    (hfind : ∀ uid, findActiveMembership db uid gid = none) :
    ∀ (uids : List Nat) (acc : BulkRemoveResult),
      uids.foldl (bulkRemoveStep db gid) acc
        = ⟨acc.removed_count, acc.not_member_count + uids.length, acc.errors⟩
  | [], acc => by simp
  | uid :: us, acc => by
    rw [List.foldl_cons]
    have hstep : bulkRemoveStep db gid acc uid
        = { acc with not_member_count := acc.not_member_count + 1 } := by
      rw [bulkRemoveStep, hfind]
    rw [hstep, bulkRemove_all_not_member hfind us _]
    simp only [List.length_cons]
    have h2 : acc.not_member_count + 1 + us.length
        = acc.not_member_count + (us.length + 1) := by omega
    rw [h2]

/-- C8 counterexample: group 1 resolves only to a soft-deleted group, yet
bulk-removing `[1]` returns removed_count 1 (not 0) because the group's active
membership is still found and soft-deleted. -/
theorem C8_counterexample :
    get_group_by_id wDbC 1 false = none ∧
    (remove_multiple_members_from_group 9 wDbC 1 [1]).1.removed_count = 1 ∧
    (remove_multiple_members_from_group 9 wDbC 1 [1]).1.not_member_count = 0 := by
  decide

/-- C8 amended: bulk-remove never verifies the group's existence; for every
group id that no membership row references — in particular, by foreign-key
integrity, any id that resolves to no group row at all — it returns
removed_count 0, not_member_count equal to the length of the list and an empty
errors list, leaving the store unchanged and raising nothing. -/
theorem C8_bulk_remove_no_group_check :
    (∀ (now : Nat) (db : DB) (gid : Nat) (uids : List Nat),
      (∀ m ∈ db.memberships, m.group_id ≠ gid) →
      remove_multiple_members_from_group now db gid uids
        = (⟨0, uids.length, []⟩, db)) ∧
    (∀ (now : Nat) (db : DB) (gid : Nat) (uids : List Nat),
      (∀ m ∈ db.memberships, ∃ g ∈ db.groups, g.id = m.group_id) →
      (∀ g ∈ db.groups, g.id ≠ gid) →
      remove_multiple_members_from_group now db gid uids
        = (⟨0, uids.length, []⟩, db)) := by
  have main : ∀ (now : Nat) (db : DB) (gid : Nat) (uids : List Nat),
      (∀ m ∈ db.memberships, m.group_id ≠ gid) →
      remove_multiple_members_from_group now db gid uids
        = (⟨0, uids.length, []⟩, db) := by
    intro now db gid uids h
    have hfind : ∀ uid, findActiveMembership db uid gid = none := by
      intro uid
      rw [findActiveMembership, List.find?_eq_none]
      intro m hm
      simp only [Bool.and_eq_true, beq_iff_eq]
      rintro ⟨⟨_, h2⟩, _⟩
      exact h m hm h2
    have hmap : (db.memberships.map fun m =>
        if uids.any (fun uid => findActiveMembership db uid gid == some m) then
          { m with deleted_at := some now, updated_at := now }
        else m) = db.memberships := by
      have hone : ∀ m : Membership,
          (if uids.any (fun uid => findActiveMembership db uid gid == some m) then
            { m with deleted_at := some now, updated_at := now }
          else m) = m := by
        intro m
        have hcond : uids.any (fun uid => findActiveMembership db uid gid == some m)
            = false := by
          rw [List.any_eq_false]
          intro uid _
          rw [hfind uid]
          simp
        rw [hcond]
        rfl
      simp only [hone]
      exact List.map_id _
    rw [remove_multiple_members_from_group, hmap,
      bulkRemove_all_not_member hfind uids ⟨0, 0, []⟩]
    simp
  refine ⟨main, ?_⟩
  intro now db gid uids hfk hng
  refine main now db gid uids ?_
  intro m hm
  obtain ⟨g, hg, hgid⟩ := hfk m hm
  rw [← hgid]
  exact hng g hg

/-- C8 witness: bulk-removing two users from the unreferenced group id 99
reports zero removals, two not-members, no errors, and no state change. -/
theorem C8_witness :
    remove_multiple_members_from_group 9 wDbB 99 [1, 2] = (⟨0, 2, []⟩, wDbB) :=
  C8_bulk_remove_no_group_check.1 9 wDbB 99 [1, 2] (by decide)

/-- C2: for a pair with an existing active membership (and an active group and
user), add_member_to_group fails with the already-member error and inserts
nothing; after remove_member_from_group soft-deletes that membership, adding
the same pair succeeds and returns a new membership whose id differs from the
soft-deleted one's id. -/
theorem C2_membership_readd (t0 t1 t2 : Nat) (db : DB) (gid uid : Nat)
    (g : Group) (w : User) (m : Membership)
    (hg : db.groups.find? (fun x => x.id == gid && x.deleted_at == none) = some g)
    (hw : db.users.find? (fun x => x.id == uid && x.deleted_at == none) = some w)
    (hm : findActiveMembership db uid gid = some m)
    (hfilter : db.memberships.filter
      (fun x => x.user_id == uid && x.group_id == gid && x.deleted_at == none) = [m])
    (hfresh : ∀ m2 ∈ db.memberships, m2.id < db.nextMembershipId) :
    add_member_to_group t0 db gid uid = (.alreadyMember, db) ∧
    (remove_member_from_group t1 db gid uid).1 = .removed ∧
    ∃ m2 db2,
      add_member_to_group t2 (remove_member_from_group t1 db gid uid).2 gid uid
        = (.added m2, db2) ∧ m2.id ≠ m.id ∧ m2.user_id = uid ∧ m2.group_id = gid ∧
          m2.deleted_at = none := by
  have hmfind : db.memberships.find?
      (fun x => x.user_id == uid && x.group_id == gid && x.deleted_at == none) = some m := by
    rw [findActiveMembership] at hm
    exact hm
  refine ⟨?_, ?_, ?_⟩
  · rw [add_member_to_group, hg, hw, hm]
  · rw [remove_member_from_group, hm]
  · obtain ⟨l1, l2, hl, h1, hpa, hu⟩ :=
      find?_updateFirst_split
        (fun x : Membership => x.user_id == uid && x.group_id == gid && x.deleted_at == none)
        (fun x : Membership => { x with deleted_at := some t1, updated_at := t1 }) hmfind
    have hrm : remove_member_from_group t1 db gid uid
        = (.removed, { db with memberships :=
            l1 ++ { m with deleted_at := some t1, updated_at := t1 } :: l2 }) := by
      rw [remove_member_from_group, hm]
      simp only [hu]
    have hl2fail : ∀ x ∈ l2,
        (x.user_id == uid && x.group_id == gid && x.deleted_at == none) = false := by
      have hfl : (l1 ++ m :: l2).filter
          (fun x => x.user_id == uid && x.group_id == gid && x.deleted_at == none)
          = [m] := by
        rw [← hl]
        exact hfilter
      rw [List.filter_append] at hfl
      rw [List.filter_eq_nil_iff.mpr (by intro x hx; simp [h1 x hx])] at hfl
      rw [List.nil_append, List.filter_cons, if_pos hpa] at hfl
      have : l2.filter
          (fun x => x.user_id == uid && x.group_id == gid && x.deleted_at == none) = [] := by
        injection hfl
      intro x hx
      have := List.filter_eq_nil_iff.mp this x hx
      simpa using this
    have hfind2 : (l1 ++ { m with deleted_at := some t1, updated_at := t1 } :: l2).find?
        (fun x => x.user_id == uid && x.group_id == gid && x.deleted_at == none) = none := by
      rw [find?_append_of_fail h1, List.find?_cons_of_neg _ (by simp), List.find?_eq_none]
      intro x hx
      simp [hl2fail x hx]
    rw [hrm, add_member_to_group]
    simp only [hg, hw, findActiveMembership, hfind2]
    refine ⟨⟨db.nextMembershipId, uid, gid, t2, t2, none⟩, _, rfl, ?_, rfl, rfl, rfl⟩
    have hlt := hfresh m (by rw [hl]; exact List.mem_append.mpr (Or.inr (List.mem_cons_self m l2)))
    exact fun h2 => absurd (h2 ▸ rfl) (Nat.ne_of_lt hlt)

/-- C2 witness: on a concrete store where user 1 is an active member of
group 1, re-adding fails, removing succeeds, and adding again yields a fresh
membership id different from 1. -/
theorem C2_witness :
    add_member_to_group 4 wDbB 1 1 = (.alreadyMember, wDbB) ∧
    (remove_member_from_group 5 wDbB 1 1).1 = .removed ∧
    ∃ m2 db2,
      add_member_to_group 6 (remove_member_from_group 5 wDbB 1 1).2 1 1
        = (.added m2, db2) ∧ m2.id ≠ 1 ∧ m2.user_id = 1 ∧ m2.group_id = 1 ∧
          m2.deleted_at = none :=
  C2_membership_readd 4 5 6 wDbB 1 1 ⟨1, "g1", none, 0, 0, none⟩
    ⟨1, "alice", "a@x", "hpw", 0, 0, none⟩ ⟨1, 1, 1, 0, 0, none⟩
    (by decide) (by decide) (by decide) (by decide) (by decide)

/-- C3: against an active group, the bulk-add batch [not-yet-member user,
already-member user, nonexistent id] reports added_count 1,
already_member_count 1 and exactly one not-found error, committing the single
insert; and for any group id that resolves to no active group the batch fails
with the group-not-found error before any per-user work. -/
theorem C3_bulk_add_mixed (now : Nat) (db : DB) (gid u1 u2 u3 : Nat)
    (g : Group) (w1 w2 : User) (m2 : Membership)
    (hg : db.groups.find? (fun x => x.id == gid && x.deleted_at == none) = some g)
    (hw1 : db.users.find? (fun x => x.id == u1 && x.deleted_at == none) = some w1)
    (hm1 : findActiveMembership db u1 gid = none)
    (hw2 : db.users.find? (fun x => x.id == u2 && x.deleted_at == none) = some w2)
    (hm2 : findActiveMembership db u2 gid = some m2)
    (hw3 : db.users.find? (fun x => x.id == u3 && x.deleted_at == none) = none) :
    add_multiple_members_to_group now db gid [u1, u2, u3]
      = .ok (⟨1, 1, [userNotFoundMsg u3]⟩,
          { db with
            memberships := db.memberships ++ [⟨db.nextMembershipId, u1, gid, now, now, none⟩],
            nextMembershipId := db.nextMembershipId + 1 }) ∧
    (∀ (db2 : DB) (gid2 : Nat) (uids : List Nat),
      db2.groups.find? (fun x => x.id == gid2 && x.deleted_at == none) = none →
      add_multiple_members_to_group now db2 gid2 uids = .error (groupNotFoundMsg gid2)) := by
  constructor
  · rw [add_multiple_members_to_group, hg]
    simp only [List.foldl, bulkAddStep, hw1, hm1, hw2, hm2, hw3]
    rfl
  · intro db2 gid2 uids hng
    rw [add_multiple_members_to_group, hng]

/-- C3 witness: the mixed batch [2, 1, 99] against group 1 on a concrete store,
and the whole-batch failure for the absent group id 77. -/
theorem C3_witness :
    add_multiple_members_to_group 9 wDbB 1 [2, 1, 99]
      = .ok (⟨1, 1, [userNotFoundMsg 99]⟩,
          { wDbB with
            memberships := wDbB.memberships ++ [⟨2, 2, 1, 9, 9, none⟩],
            nextMembershipId := 3 }) ∧
    add_multiple_members_to_group 9 wDbB 77 [1] = .error (groupNotFoundMsg 77) :=
  ⟨(C3_bulk_add_mixed 9 wDbB 1 2 1 99 ⟨1, "g1", none, 0, 0, none⟩
      ⟨2, "bob", "b@x", "hpw2", 0, 0, none⟩ ⟨1, "alice", "a@x", "hpw", 0, 0, none⟩
      ⟨1, 1, 1, 0, 0, none⟩ (by decide) (by decide) (by decide) (by decide) (by decide)
      (by decide)).1,
   (C3_bulk_add_mixed 9 wDbB 1 2 1 99 ⟨1, "g1", none, 0, 0, none⟩
      ⟨2, "bob", "b@x", "hpw2", 0, 0, none⟩ ⟨1, "alice", "a@x", "hpw", 0, 0, none⟩
      ⟨1, 1, 1, 0, 0, none⟩ (by decide) (by decide) (by decide) (by decide) (by decide)
      (by decide)).2 wDbB 77 [1] (by decide)⟩

/-- C10: the legacy delete entry points are extensionally equal to the
soft-delete operations — identical result and state for every input — and none
of them ever removes a row (user and group row counts are preserved). -/
theorem C10_delete_aliases :
    (∀ (now : Nat) (db : DB) (uid : Nat),
      delete_user_by_id now db uid = soft_delete_user_by_id now db uid) ∧
    (∀ (now : Nat) (db : DB), delete_all_users now db = soft_delete_all_users now db) ∧
    (∀ (now : Nat) (db : DB) (gid : Nat),
      delete_group_by_id now db gid = soft_delete_group_by_id now db gid) ∧
    (∀ (now : Nat) (db : DB), delete_all_groups now db = soft_delete_all_groups now db) ∧
    (∀ (now : Nat) (db : DB) (uid : Nat),
      (delete_user_by_id now db uid).2.users.length = db.users.length) ∧
    (∀ (now : Nat) (db : DB), (delete_all_users now db).2.users.length = db.users.length) ∧
    (∀ (now : Nat) (db : DB) (gid : Nat),
      (delete_group_by_id now db gid).2.groups.length = db.groups.length) ∧
    (∀ (now : Nat) (db : DB), (delete_all_groups now db).2.groups.length = db.groups.length) := by
  refine ⟨fun _ _ _ => rfl, fun _ _ => rfl, fun _ _ _ => rfl, fun _ _ => rfl, ?_, ?_, ?_, ?_⟩
  · intro now db uid
    rw [delete_user_by_id, soft_delete_user_by_id]
    split
    · rfl
    · split
      next db1 hc =>
        obtain ⟨_, h2⟩ := commitUsers_ok hc
        rw [h2]
        simp [updateFirst_length]
      next => rfl
  · intro now db
    rw [delete_all_users, soft_delete_all_users]
    simp
  · intro now db gid
    rw [delete_group_by_id, soft_delete_group_by_id]
    split
    · rfl
    · simp [updateFirst_length]
  · intro now db
    rw [delete_all_groups, soft_delete_all_groups]
    simp
